import Mathlib

/-!
Verification of the cross-venue arbitrage engine of this repository.

The definitions below are a shallow embedding of the JavaScript source:

* `src/js/arbitrage.js` — `calculateSingleArbitrage` / `calculateArbitrage`
  (the maker/taker arbitrage calculator);
* `src/js/app.js` — `getHLFeeRate` and `getOSFeeRate` (fee schedule
  resolvers) and the globals they read;
* `src/js/config.js` — `FEE_SCHEDULE`, `OSTIUM_FEE_SCHEDULE`,
  `PRIORITY_ASSETS`;
* `src/js/data-loader.js` — `sortByPriority`.

JavaScript numbers are modelled by `ℚ` (exact arithmetic; none of the
properties proved here depend on binary rounding).  Where a claim is about
IEEE special values (`Infinity`, `NaN` from division by zero), a second
model `calculateSingleArbitrageJS` over the carrier `JSNum` — rationals
extended with the two infinities and `NaN`, with IEEE propagation rules —
is used; in the plain `ℚ` model the unreachable "Infinity" break-even
sentinel is represented by `Option.none`.
-/

/-- Truthiness-based defaulting for numeric fields: the JS idiom
`x || y` applied to an optional number `x` yields `y` when `x` is
absent (`undefined`) or equal to `0` (both falsy), and `x` otherwise.
Used for `contract.fundingRate?.rateHourly || 0` and the
`longPayHourly || rolloverRate?.hourly || 0` chain in
`calculateSingleArbitrage` (src/js/arbitrage.js lines 57–58). -/
def jsOrQ (x : Option ℚ) (y : ℚ) : ℚ :=
  match x with
  | some v => if v = 0 then y else v
  | none => y

/-- Whether `pat` occurs as a contiguous sublist of `l`, by structural
recursion (kernel-reducible, unlike the position-based `String`
primitives). -/
def listIsInfix [DecidableEq α] (pat : List α) : List α → Bool
  | [] => List.isPrefixOf pat []
  | x :: xs => List.isPrefixOf pat (x :: xs) || listIsInfix pat xs

/-- JS `String.prototype.includes`: substring test on the character
lists of the two strings. -/
def jsIncludes (s pat : String) : Bool :=
  listIsInfix pat.data s.data

/-- JS `String.prototype.toLowerCase` (ASCII, which covers every string
compared in this code base): character-wise `Char.toLower`, structurally
over the character list. -/
def jsToLower (s : String) : String :=
  ⟨s.data.map Char.toLower⟩

/-- JS `String.prototype.toUpperCase` (ASCII): character-wise
`Char.toUpper`, structurally over the character list. -/
def jsToUpper (s : String) : String :=
  ⟨s.data.map Char.toUpper⟩

/-- JS `Array.prototype.findIndex`, with the "not found" result `-1`
represented as `none`. -/
def jsFindIndex (p : β → Bool) : List β → Option Nat
  | [] => none
  | x :: xs => if p x then some 0 else (jsFindIndex p xs).map (· + 1)

/-- A Hyperliquid instrument snapshot, as consumed by the calculator and
the fee resolver (`coin`, `dex`, top-of-book prices, hourly funding). -/
structure HLContract where
  coin : String
  dex : Option String
  bid : ℚ
  mid : ℚ
  ask : ℚ
  fundingRate_rateHourly : Option ℚ
deriving DecidableEq

/-- An Ostium instrument snapshot (`from` asset symbol, `group`
classification, top-of-book prices, funding or rollover rate). -/
structure OSContract where
  «from» : Option String
  group : Option String
  bid : ℚ
  mid : ℚ
  ask : ℚ
  fundingRate_longPayHourly : Option ℚ
  rolloverRate_hourly : Option ℚ
deriving DecidableEq

/-- The execution assumption of a sub-result of `calculateArbitrage`:
resting orders filling at mid (`maker`) or market orders crossing the
book (`taker`). -/
inductive OrderType where
  | maker
  | taker
deriving DecidableEq

/-- Local `hlFunding` of src/js/arbitrage.js line 57:
`hlContract.fundingRate?.rateHourly || 0`. -/
def hlFundingOf (hl : HLContract) : ℚ :=
  jsOrQ hl.fundingRate_rateHourly 0

/-- Local `osFunding` of src/js/arbitrage.js line 58:
`osContract.fundingRate?.longPayHourly || osContract.rolloverRate?.hourly || 0`.
Note that the rollover rate is used with its sign unchanged. -/
def osFundingOf (os : OSContract) : ℚ :=
  jsOrQ os.fundingRate_longPayHourly (jsOrQ os.rolloverRate_hourly 0)

/-- Local `fundingDiff` of src/js/arbitrage.js line 59:
`Math.abs(hlFunding - osFunding)`. -/
def fundingDiffOf (hl : HLContract) (os : OSContract) : ℚ :=
  |hlFundingOf hl - osFundingOf os|

/-- Local `fundingPerHour` of src/js/arbitrage.js line 60:
`size * (fundingDiff / 100)`. -/
def fundingPerHourOf (size : ℚ) (hl : HLContract) (os : OSContract) : ℚ :=
  size * (fundingDiffOf hl os / 100)

/-- Local `avgPrice` of src/js/arbitrage.js lines 47 and 52: the reference
price of a sub-result — the average of the two mids under the maker
assumption, the average of the two actual fill prices (selected by the
mid comparison on line 31) under the taker assumption. -/
def avgPriceOf (orderType : OrderType) (hl : HLContract) (os : OSContract) : ℚ :=
  match orderType with
  | .maker => (hl.mid + os.mid) / 2
  | .taker =>
    if hl.mid > os.mid then (hl.bid + os.ask) / 2 else (hl.ask + os.bid) / 2

/-- Local `currentSpreadUSD` of src/js/arbitrage.js lines 31–44 (taker: the
direction-selected bid/ask difference clamped at 0 by `Math.max`) and
line 51 (maker: `Math.abs(hlContract.mid - osContract.mid)`). -/
def currentSpreadUSDOf (orderType : OrderType) (hl : HLContract) (os : OSContract) : ℚ :=
  match orderType with
  | .maker => |hl.mid - os.mid|
  | .taker =>
    max 0 (if hl.mid > os.mid then hl.bid - os.ask else os.bid - hl.ask)

/-- Local `breakEvenSpreadUSD` of src/js/arbitrage.js lines 48 and 53:
`totalCost * avgPrice / size` (with `totalCost = hlCost + osCost`). -/
def breakEvenSpreadUSDOf (hlCost osCost size : ℚ) (orderType : OrderType)
    (hl : HLContract) (os : OSContract) : ℚ :=
  (hlCost + osCost) * avgPriceOf orderType hl os / size

/-- Local `spreadProfit` of src/js/arbitrage.js line 65:
`currentSpreadUSD * size / avgPrice`. -/
def spreadProfitOf (size : ℚ) (orderType : OrderType)
    (hl : HLContract) (os : OSContract) : ℚ :=
  currentSpreadUSDOf orderType hl os * size / avgPriceOf orderType hl os

/-- Local `remainingCost` of src/js/arbitrage.js line 68:
`totalCost - spreadProfit`. -/
def remainingCostOf (hlCost osCost size : ℚ) (orderType : OrderType)
    (hl : HLContract) (os : OSContract) : ℚ :=
  (hlCost + osCost) - spreadProfitOf size orderType hl os

/-- Internal `fundingHours` of src/js/arbitrage.js line 61:
`fundingPerHour > 0 ? totalCost / fundingPerHour : Infinity`, with the
`Infinity` sentinel represented as `none`. -/
def fundingHoursIOf (hlCost osCost size : ℚ) (hl : HLContract) (os : OSContract) :
    Option ℚ :=
  if 0 < fundingPerHourOf size hl os then
    some ((hlCost + osCost) / fundingPerHourOf size hl os)
  else none

/-- Internal `comboHours` of src/js/arbitrage.js lines 69–71:
`remainingCost > 0 && fundingPerHour > 0 ? remainingCost / fundingPerHour
: (remainingCost <= 0 ? 0 : Infinity)`, with `Infinity` as `none`. -/
def comboHoursIOf (hlCost osCost size : ℚ) (orderType : OrderType)
    (hl : HLContract) (os : OSContract) : Option ℚ :=
  if 0 < remainingCostOf hlCost osCost size orderType hl os ∧
      0 < fundingPerHourOf size hl os then
    some (remainingCostOf hlCost osCost size orderType hl os /
      fundingPerHourOf size hl os)
  else if remainingCostOf hlCost osCost size orderType hl os ≤ 0 then some 0
  else none

/-- The record returned by `calculateSingleArbitrage`
(src/js/arbitrage.js lines 78–89).  The returned `fundingHours` and
`comboHours` are `null` (`none`) when the corresponding validity flag is
false. -/
structure ArbResult where
  totalCost : ℚ
  breakEvenSpreadUSD : ℚ
  currentSpreadUSD : ℚ
  spreadCanProfit : Bool
  fundingDiff : ℚ
  fundingHours : Option ℚ
  fundingValid : Bool
  comboHours : Option ℚ
  comboValid : Bool
  anyCanProfit : Bool
deriving DecidableEq

/-- Function `calculateSingleArbitrage` (src/js/arbitrage.js lines 17–90) over the
exact-rational model.  The comparison with the `Infinity` sentinel in
`fundingValid` (`fundingHours <= maxHours && fundingHours > 0`) and in
`comboValid` (`comboHours <= maxHours`) is false for every finite
`maxHours`, so the sentinel branch maps to `false`. -/
def calculateSingleArbitrage (hlCost osCost size maxHours : ℚ)
    (hl : HLContract) (os : OSContract) (orderType : OrderType) : ArbResult :=
  let fundingHoursI := fundingHoursIOf hlCost osCost size hl os
  let fundingValid : Bool :=
    match fundingHoursI with
    | some h => decide (h ≤ maxHours) && decide (0 < h)
    | none => false
  let comboHoursI := comboHoursIOf hlCost osCost size orderType hl os
  let comboValid : Bool :=
    match comboHoursI with
    | some h => decide (h ≤ maxHours)
    | none => false
  let spreadCanProfit : Bool :=
    decide (breakEvenSpreadUSDOf hlCost osCost size orderType hl os ≤
      currentSpreadUSDOf orderType hl os)
  { totalCost := hlCost + osCost
    breakEvenSpreadUSD := breakEvenSpreadUSDOf hlCost osCost size orderType hl os
    currentSpreadUSD := currentSpreadUSDOf orderType hl os
    spreadCanProfit := spreadCanProfit
    fundingDiff := fundingDiffOf hl os
    fundingHours := if fundingValid then fundingHoursI else none
    fundingValid := fundingValid
    comboHours := if comboValid then comboHoursI else none
    comboValid := comboValid
    anyCanProfit := spreadCanProfit || fundingValid || comboValid }

/-- A Hyperliquid fee-rate pair `{t, m}` (taker %, maker %). -/
structure FeePair where
  t : ℚ
  m : ℚ
deriving DecidableEq

/-- An Ostium resolved fee: traditional assets get a single scalar rate,
crypto a `{t, m}` pair (`getOSFeeRate`, src/js/app.js lines 61–94). -/
inductive OSFee where
  | scalar (r : ℚ)
  | pair (t m : ℚ)
deriving DecidableEq

/-- The record returned by `calculateArbitrage`
(src/js/arbitrage.js lines 117–120). -/
structure ArbPair where
  maker : ArbResult
  taker : ArbResult
deriving DecidableEq

/-- Function `calculateArbitrage` (src/js/arbitrage.js lines 101–121).  The
position size and horizon are read from the module-level
`ARBITRAGE_CONFIG` (`positionSize`, `maxFundingHours`); that
configuration object is not part of `src/`, so it is passed here as the
two explicit trailing arguments. -/
def calculateArbitrage (hl : HLContract) (os : OSContract)
    (hlFee : FeePair) (osFee : OSFee) (oracleFee size maxHours : ℚ) : ArbPair :=
  let osOpenFeeRateMaker := match osFee with | .pair _ m => m | .scalar r => r
  let hlCostMaker := size * (hlFee.m / 100) * 2
  let osCostMaker := size * (osOpenFeeRateMaker / 100) + oracleFee
  let osOpenFeeRateTaker := match osFee with | .pair t _ => t | .scalar r => r
  let hlCostTaker := size * (hlFee.t / 100) * 2
  let osCostTaker := size * (osOpenFeeRateTaker / 100) + oracleFee
  { maker := calculateSingleArbitrage hlCostMaker osCostMaker size maxHours hl os .maker
    taker := calculateSingleArbitrage hlCostTaker osCostTaker size maxHours hl os .taker }

/-- The three Hyperliquid fee classes of `FEE_SCHEDULE`
(src/js/config.js lines 17–53). -/
inductive FeeClass where
  | perps_base
  | hip3_growth
  | hip3_standard
deriving DecidableEq, Fintype

/-- Table `FEE_SCHEDULE` (src/js/config.js lines 17–53): base `{t, m}`
percentage rates per fee class, keyed by tier 0–6 (rates in %,
e.g. `0.045` = 0.045%). -/
def FEE_SCHEDULE : FeeClass → Fin 7 → FeePair
  | .perps_base, ⟨0, _⟩ => ⟨0.045, 0.015⟩
  | .perps_base, ⟨1, _⟩ => ⟨0.04, 0.012⟩
  | .perps_base, ⟨2, _⟩ => ⟨0.035, 0.008⟩
  | .perps_base, ⟨3, _⟩ => ⟨0.03, 0.004⟩
  | .perps_base, ⟨4, _⟩ => ⟨0.028, 0.0⟩
  | .perps_base, ⟨5, _⟩ => ⟨0.026, 0.0⟩
  | .perps_base, ⟨6, _⟩ => ⟨0.024, 0.0⟩
  | .hip3_growth, ⟨0, _⟩ => ⟨0.009, 0.003⟩
  | .hip3_growth, ⟨1, _⟩ => ⟨0.008, 0.0024⟩
  | .hip3_growth, ⟨2, _⟩ => ⟨0.007, 0.0016⟩
  | .hip3_growth, ⟨3, _⟩ => ⟨0.006, 0.0008⟩
  | .hip3_growth, ⟨4, _⟩ => ⟨0.0056, 0.0⟩
  | .hip3_growth, ⟨5, _⟩ => ⟨0.0052, 0.0⟩
  | .hip3_growth, ⟨6, _⟩ => ⟨0.0048, 0.0⟩
  | .hip3_standard, ⟨0, _⟩ => ⟨0.090, 0.030⟩
  | .hip3_standard, ⟨1, _⟩ => ⟨0.080, 0.024⟩
  | .hip3_standard, ⟨2, _⟩ => ⟨0.070, 0.016⟩
  | .hip3_standard, ⟨3, _⟩ => ⟨0.060, 0.008⟩
  | .hip3_standard, ⟨4, _⟩ => ⟨0.056, 0.0⟩
  | .hip3_standard, ⟨5, _⟩ => ⟨0.052, 0.0⟩
  | .hip3_standard, ⟨6, _⟩ => ⟨0.048, 0.0⟩
  | _, ⟨n + 7, h⟩ => absurd h (by omega)

/-- The fee-class selection of `getHLFeeRate` (src/js/app.js lines
34–47): `dex === 'xyz'` selects HIP-3, within which a `GOLD` name
selects `hip3_standard` and everything else `hip3_growth`; any other
`dex` (defaulted to `'main'`) selects `perps_base`. -/
def hlFeeClass (contract : HLContract) : FeeClass :=
  if contract.dex.getD "main" = "xyz" then
    if contract.coin = "GOLD" || jsIncludes contract.coin "GOLD" then
      .hip3_standard
    else .hip3_growth
  else .perps_base

/-- Function `getHLFeeRate` (src/js/app.js lines 26–54): looks up the base
`{t, m}` entry for the contract's fee class at the current tier and
applies the referral discount multiplier `1 - discount/100` to both
rates.  `tier` and `discount` mirror the globals `CURRENT_TIER` and
`REFERRAL_DISCOUNT` read by the source. -/
def getHLFeeRate (contract : HLContract) (tier : Fin 7) (discount : ℚ) : FeePair :=
  let discountMultiplier := 1 - discount / 100
  let baseFee := FEE_SCHEDULE (hlFeeClass contract) tier
  ⟨baseFee.t * discountMultiplier, baseFee.m * discountMultiplier⟩

/-- Table `OSTIUM_FEE_SCHEDULE.traditional` (src/js/config.js lines 61–75):
per-asset open-fee overrides in % (all entries are nonzero, so the JS
truthiness test `if (OSTIUM_FEE_SCHEDULE.traditional[from])` coincides
with key presence). -/
def OSTIUM_FEE_SCHEDULE_traditional (s : String) : Option ℚ :=
  List.lookup s
    [("forex", 0.03), ("indices", 0.05), ("stocks", 0.05),
      ("XAU", 0.03), ("XAG", 0.15), ("XPT", 0.20), ("XPD", 0.20),
      ("CL", 0.10)]

/-- Constant `OSTIUM_FEE_SCHEDULE.crypto.maker` (src/js/config.js line 79). -/
def OSTIUM_FEE_SCHEDULE_crypto_maker : ℚ := 0.03

/-- Constant `OSTIUM_FEE_SCHEDULE.crypto.taker` (src/js/config.js line 80). -/
def OSTIUM_FEE_SCHEDULE_crypto_taker : ℚ := 0.10

/-- Constant `OSTIUM_FEE_SCHEDULE.other.oracleFee` (src/js/config.js line 85). -/
def OSTIUM_FEE_SCHEDULE_other_oracleFee : ℚ := 0.10

/-- Function `getOSFeeRate` (src/js/app.js lines 61–94): asset-specific override
first, then the lowercased `group` classification chain, then the 6 bps
default. -/
def getOSFeeRate (contract : OSContract) : OSFee :=
  let fromS := contract.«from».getD ""
  let group := jsToLower (contract.group.getD "")
  match OSTIUM_FEE_SCHEDULE_traditional fromS with
  | some r => .scalar r
  | none =>
    if group = "forex" ∨ jsIncludes group "fx" = true then .scalar 0.03
    else if group = "indices" ∨ group = "index" then .scalar 0.05
    else if group = "stocks" ∨ group = "stock" ∨ group = "equities" then .scalar 0.05
    else if group = "commodities" ∨ group = "commodity" then .scalar 0.05
    else if group = "crypto" ∨ group = "cryptocurrency" then
      .pair OSTIUM_FEE_SCHEDULE_crypto_taker OSTIUM_FEE_SCHEDULE_crypto_maker
    else .scalar 0.06

/-- A JavaScript number for the degenerate-division analysis: an exact
rational, one of the two infinities, or `NaN`.  Binary rounding is not
modelled (it does not affect which operations produce special values in
the code verified here); signed zero is not modelled (all inputs reach
the calculator as ordinary numbers, for which JS produces `+0`). -/
inductive JSNum where
  | num (q : ℚ)
  | posInf
  | negInf
  | nan
deriving DecidableEq

/-- IEEE addition on `JSNum`. -/
def jsAdd : JSNum → JSNum → JSNum
  | .nan, _ => .nan
  | _, .nan => .nan
  | .posInf, .negInf => .nan
  | .negInf, .posInf => .nan
  | .posInf, _ => .posInf
  | _, .posInf => .posInf
  | .negInf, _ => .negInf
  | _, .negInf => .negInf
  | .num a, .num b => .num (a + b)

/-- IEEE negation on `JSNum`. -/
def jsNeg : JSNum → JSNum
  | .num a => .num (-a)
  | .posInf => .negInf
  | .negInf => .posInf
  | .nan => .nan

/-- IEEE subtraction on `JSNum`. -/
def jsSub (a b : JSNum) : JSNum := jsAdd a (jsNeg b)

/-- IEEE multiplication on `JSNum` (`0 × ∞ = NaN`). -/
def jsMul : JSNum → JSNum → JSNum
  | .nan, _ => .nan
  | _, .nan => .nan
  | .num a, .num b => .num (a * b)
  | .num a, .posInf => if a = 0 then .nan else if 0 < a then .posInf else .negInf
  | .num a, .negInf => if a = 0 then .nan else if 0 < a then .negInf else .posInf
  | .posInf, .num b => if b = 0 then .nan else if 0 < b then .posInf else .negInf
  | .negInf, .num b => if b = 0 then .nan else if 0 < b then .negInf else .posInf
  | .posInf, .posInf => .posInf
  | .posInf, .negInf => .negInf
  | .negInf, .posInf => .negInf
  | .negInf, .negInf => .posInf

/-- IEEE division on `JSNum` (`x/0` is a signed infinity for `x ≠ 0`
and `NaN` for `x = 0`; `∞/∞ = NaN`; finite`/∞ = 0`). -/
def jsDiv : JSNum → JSNum → JSNum
  | .nan, _ => .nan
  | _, .nan => .nan
  | .num a, .num b =>
    if b = 0 then (if a = 0 then .nan else if 0 < a then .posInf else .negInf)
    else .num (a / b)
  | .num _, .posInf => .num 0
  | .num _, .negInf => .num 0
  | .posInf, .num b => if 0 ≤ b then .posInf else .negInf
  | .negInf, .num b => if 0 ≤ b then .negInf else .posInf
  | .posInf, _ => .nan
  | .negInf, _ => .nan

/-- JS `<` on numbers: any comparison involving `NaN` is false. -/
def jsLt : JSNum → JSNum → Bool
  | .num a, .num b => decide (a < b)
  | .num _, .posInf => true
  | .negInf, .num _ => true
  | .negInf, .posInf => true
  | _, _ => false

/-- JS `<=` on numbers: any comparison involving `NaN` is false. -/
def jsLe : JSNum → JSNum → Bool
  | .num a, .num b => decide (a ≤ b)
  | .num _, .posInf => true
  | .negInf, .num _ => true
  | .negInf, .posInf => true
  | .posInf, .posInf => true
  | .negInf, .negInf => true
  | _, _ => false

/-- Internal `fundingHours` of src/js/arbitrage.js line 61 with the JS
`Infinity` sentinel kept literal:
`fundingPerHour > 0 ? totalCost / fundingPerHour : Infinity`. -/
def fundingHoursJSOf (hlCost osCost size : ℚ) (hl : HLContract) (os : OSContract) :
    JSNum :=
  if jsLt (.num 0) (.num (fundingPerHourOf size hl os)) then
    jsDiv (jsAdd (.num hlCost) (.num osCost)) (.num (fundingPerHourOf size hl os))
  else .posInf

/-- Local `spreadProfit` of src/js/arbitrage.js line 65 with IEEE division:
`currentSpreadUSD * size / avgPrice`. -/
def spreadProfitJSOf (size : ℚ) (orderType : OrderType)
    (hl : HLContract) (os : OSContract) : JSNum :=
  jsDiv (jsMul (.num (currentSpreadUSDOf orderType hl os)) (.num size))
    (.num (avgPriceOf orderType hl os))

/-- Local `remainingCost` of src/js/arbitrage.js line 68 with IEEE
arithmetic. -/
def remainingCostJSOf (hlCost osCost size : ℚ) (orderType : OrderType)
    (hl : HLContract) (os : OSContract) : JSNum :=
  jsSub (jsAdd (.num hlCost) (.num osCost)) (spreadProfitJSOf size orderType hl os)

/-- Internal `comboHours` of src/js/arbitrage.js lines 69–71 with IEEE
arithmetic. -/
def comboHoursJSOf (hlCost osCost size : ℚ) (orderType : OrderType)
    (hl : HLContract) (os : OSContract) : JSNum :=
  if jsLt (.num 0) (remainingCostJSOf hlCost osCost size orderType hl os) &&
      jsLt (.num 0) (.num (fundingPerHourOf size hl os)) then
    jsDiv (remainingCostJSOf hlCost osCost size orderType hl os)
      (.num (fundingPerHourOf size hl os))
  else if jsLe (remainingCostJSOf hlCost osCost size orderType hl os) (.num 0) then
    .num 0
  else .posInf

/-- The record returned by `calculateSingleArbitrage` in the IEEE
model (returned hour fields are `null`-or-number, i.e. `Option`). -/
structure ArbResultJS where
  totalCost : JSNum
  breakEvenSpreadUSD : JSNum
  currentSpreadUSD : JSNum
  spreadCanProfit : Bool
  fundingDiff : JSNum
  fundingHours : Option JSNum
  fundingValid : Bool
  comboHours : Option JSNum
  comboValid : Bool
  anyCanProfit : Bool
deriving DecidableEq

/-- Function `calculateSingleArbitrage` (src/js/arbitrage.js lines 17–90) in the
IEEE model: identical to the `ℚ` model except that every division is
`jsDiv` (so `Infinity` and `NaN` arise exactly as in JS) and every
comparison against a possibly-special value is `jsLt`/`jsLe` (false on
`NaN`).  Quantities that are sums/products of ordinary inputs stay in
`ℚ`. -/
def calculateSingleArbitrageJS (hlCost osCost size maxHours : ℚ)
    (hl : HLContract) (os : OSContract) (orderType : OrderType) : ArbResultJS :=
  let totalCost := jsAdd (.num hlCost) (.num osCost)
  let breakEvenSpreadUSD :=
    jsDiv (jsMul totalCost (.num (avgPriceOf orderType hl os))) (.num size)
  let fundingHours := fundingHoursJSOf hlCost osCost size hl os
  let fundingValid := jsLe fundingHours (.num maxHours) && jsLt (.num 0) fundingHours
  let comboHours := comboHoursJSOf hlCost osCost size orderType hl os
  let comboValid := jsLe comboHours (.num maxHours)
  let spreadCanProfit :=
    jsLe breakEvenSpreadUSD (.num (currentSpreadUSDOf orderType hl os))
  { totalCost := totalCost
    breakEvenSpreadUSD := breakEvenSpreadUSD
    currentSpreadUSD := .num (currentSpreadUSDOf orderType hl os)
    spreadCanProfit := spreadCanProfit
    fundingDiff := .num (fundingDiffOf hl os)
    fundingHours := if fundingValid then some fundingHours else none
    fundingValid := fundingValid
    comboHours := if comboValid then some comboHours else none
    comboValid := comboValid
    anyCanProfit := spreadCanProfit || fundingValid || comboValid }

/-- List `PRIORITY_ASSETS` (src/js/config.js lines 102–107). -/
def PRIORITY_ASSETS : List String :=
  ["GOLD", "SILVER", "COPPER", "XYZ100", "XAU", "XAG", "HG", "NDX"]

/-- The uppercased display name used by the `sortByPriority` comparator
(src/js/data-loader.js line 11): `(a[nameField] || '').toUpperCase()`.
The name-field access is modelled by the accessor `getName`. -/
def upperNameOf (getName : α → Option String) (a : α) : String :=
  jsToUpper (getName a |>.getD "")

/-- Whether a contract's name contains some priority asset
(src/js/data-loader.js line 13: `PRIORITY_ASSETS.some(p => aName.includes(p))`). -/
def isPriorityName (getName : α → Option String) (a : α) : Bool :=
  PRIORITY_ASSETS.any fun p => jsIncludes (upperNameOf getName a) p

/-- The sort key induced by the `sortByPriority` comparator: the index
of the first matching priority entry (src/js/data-loader.js line 19:
`PRIORITY_ASSETS.findIndex(p => aName.includes(p))`), or
`PRIORITY_ASSETS.length` for a non-priority contract. -/
def sortKeyOf (getName : α → Option String) (a : α) : Nat :=
  match jsFindIndex (fun p => jsIncludes (upperNameOf getName a) p) PRIORITY_ASSETS with
  | some i => i
  | none => PRIORITY_ASSETS.length

/-- The comparator passed to `contracts.sort` by `sortByPriority`
(src/js/data-loader.js lines 10–23), returning a JS-style negative /
zero / positive integer.  In the both-priority branch the source reads
the `findIndex` results, which are present because both `some` tests
succeeded. -/
def sortByPriorityCompare (getName : α → Option String) (a b : α) : Int :=
  let aIsPriority := isPriorityName getName a
  let bIsPriority := isPriorityName getName b
  if aIsPriority && !bIsPriority then -1
  else if !aIsPriority && bIsPriority then 1
  else if aIsPriority && bIsPriority then
    (((jsFindIndex (fun p => jsIncludes (upperNameOf getName a) p)
        PRIORITY_ASSETS).getD 0 : Nat) : Int) -
      (((jsFindIndex (fun p => jsIncludes (upperNameOf getName b) p)
        PRIORITY_ASSETS).getD 0 : Nat) : Int)
  else 0

/-- Ascending buckets of equal `sortKeyOf`: `sortBuckets getName n l`
concatenates, for `k = 0, …, n-1` in order, the sublists of `l` (in
insertion order) whose sort key is `k`. -/
def sortBuckets (getName : α → Option String) : Nat → List α → List α
  | 0, _ => []
  | k + 1, l =>
    sortBuckets getName k l ++ l.filter fun a => sortKeyOf getName a == k

/-- Function `sortByPriority` (src/js/data-loader.js lines 9–25).
`Array.prototype.sort` with a consistent comparator is, by the
ECMAScript specification (stable sort), extensionally the stable sort by
the comparator's order; `sortByPriorityCompare` orders elements exactly
by `sortKeyOf` (see `sortByPriorityCompare_lt` / `sortByPriorityCompare_eq`
below), and the stable sort by a `Nat` key bounded by
`PRIORITY_ASSETS.length` is the concatenation of the equal-key buckets
in key order. -/
def sortByPriority (getName : α → Option String) (contracts : List α) : List α :=
  sortBuckets getName (PRIORITY_ASSETS.length + 1) contracts

/-- The base fee tables are monotonically non-increasing in the tier
index, for both the taker and the maker column of every fee class
(src/js/config.js lines 17–53). -/
theorem FEE_SCHEDULE_mono :
    ∀ (cls : FeeClass) (t1 t2 : Fin 7), t1 ≤ t2 →
      (FEE_SCHEDULE cls t2).t ≤ (FEE_SCHEDULE cls t1).t ∧
      (FEE_SCHEDULE cls t2).m ≤ (FEE_SCHEDULE cls t1).m := by
  intro cls t1 t2 h
  cases cls <;> fin_cases t1 <;> fin_cases t2 <;>
    first
      | exact absurd h (by decide)
      | exact ⟨by norm_num [FEE_SCHEDULE], by norm_num [FEE_SCHEDULE]⟩

/-- Claim C1: in the worked maker scenario — HL contract with
mid 95636.50, crypto (`dex` main, hence `perps_base`), tier 0, 4%
referral discount (base maker rate 0.015%); OS contract with
mid 94943.38, crypto group (maker rate 0.03%), oracle fee $0.10;
position size 1000 — `calculateArbitrage`'s maker sub-result has
`totalCost = 0.288 + 0.40 = 0.688`,
`breakEvenSpreadUSD = 0.688 × 95289.94 / 1000` (≈ 65.56, where
95289.94 is the average of the two mids), `currentSpreadUSD = 693.12`,
and `spreadCanProfit = true`. -/
theorem calculateArbitrage_maker_scenario :
    (calculateArbitrage
        ⟨"BTC", none, 95636.50, 95636.50, 95636.50, none⟩
        ⟨some "BTC", some "crypto", 94943.38, 94943.38, 94943.38, none, none⟩
        (getHLFeeRate ⟨"BTC", none, 95636.50, 95636.50, 95636.50, none⟩ 0 4)
        (getOSFeeRate
          ⟨some "BTC", some "crypto", 94943.38, 94943.38, 94943.38, none, none⟩)
        OSTIUM_FEE_SCHEDULE_other_oracleFee 1000 24).maker.totalCost
      = 0.288 + 0.40 ∧
    (calculateArbitrage
        ⟨"BTC", none, 95636.50, 95636.50, 95636.50, none⟩
        ⟨some "BTC", some "crypto", 94943.38, 94943.38, 94943.38, none, none⟩
        (getHLFeeRate ⟨"BTC", none, 95636.50, 95636.50, 95636.50, none⟩ 0 4)
        (getOSFeeRate
          ⟨some "BTC", some "crypto", 94943.38, 94943.38, 94943.38, none, none⟩)
        OSTIUM_FEE_SCHEDULE_other_oracleFee 1000 24).maker.breakEvenSpreadUSD
      = 0.688 * 95289.94 / 1000 ∧
    (calculateArbitrage
        ⟨"BTC", none, 95636.50, 95636.50, 95636.50, none⟩
        ⟨some "BTC", some "crypto", 94943.38, 94943.38, 94943.38, none, none⟩
        (getHLFeeRate ⟨"BTC", none, 95636.50, 95636.50, 95636.50, none⟩ 0 4)
        (getOSFeeRate
          ⟨some "BTC", some "crypto", 94943.38, 94943.38, 94943.38, none, none⟩)
        OSTIUM_FEE_SCHEDULE_other_oracleFee 1000 24).maker.currentSpreadUSD
      = 693.12 ∧
    (calculateArbitrage
        ⟨"BTC", none, 95636.50, 95636.50, 95636.50, none⟩
        ⟨some "BTC", some "crypto", 94943.38, 94943.38, 94943.38, none, none⟩
        (getHLFeeRate ⟨"BTC", none, 95636.50, 95636.50, 95636.50, none⟩ 0 4)
        (getOSFeeRate
          ⟨some "BTC", some "crypto", 94943.38, 94943.38, 94943.38, none, none⟩)
        OSTIUM_FEE_SCHEDULE_other_oracleFee 1000 24).maker.spreadCanProfit
      = true := by
  have hhl : getHLFeeRate ⟨"BTC", none, 95636.50, 95636.50, 95636.50, none⟩ 0 4
      = ⟨0.045 * (1 - 4 / 100), 0.015 * (1 - 4 / 100)⟩ := rfl
  have hos : getOSFeeRate
        ⟨some "BTC", some "crypto", 94943.38, 94943.38, 94943.38, none, none⟩
      = .pair OSTIUM_FEE_SCHEDULE_crypto_taker OSTIUM_FEE_SCHEDULE_crypto_maker := rfl
  simp only [hhl, hos]
  refine ⟨?_, ?_, ?_, ?_⟩ <;>
    norm_num [calculateArbitrage, calculateSingleArbitrage, breakEvenSpreadUSDOf,
      currentSpreadUSDOf, avgPriceOf, abs_of_nonneg, OSTIUM_FEE_SCHEDULE_crypto_maker,
      OSTIUM_FEE_SCHEDULE_crypto_taker, OSTIUM_FEE_SCHEDULE_other_oracleFee]

/-- Claim C2: under the taker assumption, the current spread is
`max(0, hl.bid - os.ask)` when HL's mid exceeds OS's mid and
`max(0, os.bid - hl.ask)` otherwise, and it is never negative, for
every pair of contracts and every cost/size/horizon input. -/
theorem taker_currentSpread_spec (hlCost osCost size maxHours : ℚ)
    (hl : HLContract) (os : OSContract) :
    (calculateSingleArbitrage hlCost osCost size maxHours hl os .taker).currentSpreadUSD
      = (if hl.mid > os.mid then max 0 (hl.bid - os.ask)
          else max 0 (os.bid - hl.ask)) ∧
    0 ≤ (calculateSingleArbitrage hlCost osCost size maxHours hl os
        .taker).currentSpreadUSD := by
  constructor
  · show currentSpreadUSDOf .taker hl os = _
    simp only [currentSpreadUSDOf]
    split_ifs <;> rfl
  · show 0 ≤ currentSpreadUSDOf .taker hl os
    simp only [currentSpreadUSDOf]
    exact le_max_left _ _

/-- Claim C3: round-trip identity of the break-even formula — for
nonzero position size and nonzero reference price (the sub-result's
`avgPrice`), `breakEvenSpreadUSD × size / referencePrice = totalCost`
in every sub-result of `calculateSingleArbitrage`. -/
theorem breakEven_roundtrip (hlCost osCost size maxHours : ℚ)
    (hl : HLContract) (os : OSContract) (orderType : OrderType)
    (hsize : size ≠ 0) (havg : avgPriceOf orderType hl os ≠ 0) :
    (calculateSingleArbitrage hlCost osCost size maxHours hl os
        orderType).breakEvenSpreadUSD * size / avgPriceOf orderType hl os
      = (calculateSingleArbitrage hlCost osCost size maxHours hl os
        orderType).totalCost := by
  show breakEvenSpreadUSDOf hlCost osCost size orderType hl os * size /
      avgPriceOf orderType hl os = hlCost + osCost
  unfold breakEvenSpreadUSDOf
  field_simp

/-- Concrete instance of `breakEven_roundtrip` (maker sub-result of the
worked scenario), with both nonzeroness hypotheses discharged. -/
theorem breakEven_roundtrip_witness :
    (calculateSingleArbitrage 0.288 0.40 1000 24
        ⟨"BTC", none, 95636.50, 95636.50, 95636.50, none⟩
        ⟨some "BTC", some "crypto", 94943.38, 94943.38, 94943.38, none, none⟩
        .maker).breakEvenSpreadUSD * 1000 /
      avgPriceOf .maker ⟨"BTC", none, 95636.50, 95636.50, 95636.50, none⟩
        ⟨some "BTC", some "crypto", 94943.38, 94943.38, 94943.38, none, none⟩
      = (calculateSingleArbitrage 0.288 0.40 1000 24
        ⟨"BTC", none, 95636.50, 95636.50, 95636.50, none⟩
        ⟨some "BTC", some "crypto", 94943.38, 94943.38, 94943.38, none, none⟩
        .maker).totalCost :=
  breakEven_roundtrip 0.288 0.40 1000 24 _ _ .maker (by norm_num)
    (by norm_num [avgPriceOf])

/-- Claim C4: Hyperliquid fee resolution — for every contract (the fee
class being `hlFeeClass`, which ranges over all of `perps_base`,
`hip3_growth`, `hip3_standard`), every tier 0–6 and every discount in
the configured range 0–100, the resolved `{t, m}` pair equals the base
table entry multiplied by `1 - discount/100`, and for a fixed discount
both resolved rates are monotonically non-increasing in the tier. -/
theorem getHLFeeRate_spec (c : HLContract) (discount : ℚ)
    (_h0 : 0 ≤ discount) (h1 : discount ≤ 100) :
    (∀ tier : Fin 7, getHLFeeRate c tier discount =
      ⟨(FEE_SCHEDULE (hlFeeClass c) tier).t * (1 - discount / 100),
        (FEE_SCHEDULE (hlFeeClass c) tier).m * (1 - discount / 100)⟩) ∧
    (∀ t1 t2 : Fin 7, t1 ≤ t2 →
      (getHLFeeRate c t2 discount).t ≤ (getHLFeeRate c t1 discount).t ∧
      (getHLFeeRate c t2 discount).m ≤ (getHLFeeRate c t1 discount).m) := by
  constructor
  · intro tier
    rfl
  · intro t1 t2 h
    have hm : (0 : ℚ) ≤ 1 - discount / 100 := by linarith
    obtain ⟨ht, hmm⟩ := FEE_SCHEDULE_mono (hlFeeClass c) t1 t2 h
    exact ⟨mul_le_mul_of_nonneg_right ht hm, mul_le_mul_of_nonneg_right hmm hm⟩

/-- Concrete instance of `getHLFeeRate_spec` at discount 4 (within
0–100), tier 1 vs tier 0, on a `perps_base` contract. -/
theorem getHLFeeRate_spec_witness :
    getHLFeeRate ⟨"BTC", none, 1, 1, 1, none⟩ 1 4 =
      ⟨(FEE_SCHEDULE (hlFeeClass ⟨"BTC", none, 1, 1, 1, none⟩) 1).t * (1 - 4 / 100),
        (FEE_SCHEDULE (hlFeeClass ⟨"BTC", none, 1, 1, 1, none⟩) 1).m * (1 - 4 / 100)⟩ ∧
    (getHLFeeRate ⟨"BTC", none, 1, 1, 1, none⟩ 1 4).t ≤
      (getHLFeeRate ⟨"BTC", none, 1, 1, 1, none⟩ 0 4).t ∧
    (getHLFeeRate ⟨"BTC", none, 1, 1, 1, none⟩ 1 4).m ≤
      (getHLFeeRate ⟨"BTC", none, 1, 1, 1, none⟩ 0 4).m :=
  ⟨(getHLFeeRate_spec ⟨"BTC", none, 1, 1, 1, none⟩ 4 (by norm_num) (by norm_num)).1 1,
    (getHLFeeRate_spec ⟨"BTC", none, 1, 1, 1, none⟩ 4 (by norm_num) (by norm_num)).2
      0 1 (by decide)⟩

/-- Claim C5: funding break-even sentinel — whenever the funding-rate
differential is zero the internal break-even hours are the literal
`Infinity` sentinel (no error is raised: the function is total), the
returned `fundingHours` field is `null`, and `fundingValid` is false;
and whenever `fundingPerHour > 0` the internal break-even hours equal
`totalCost / fundingPerHour`. -/
theorem fundingBreakEven_sentinel (hlCost osCost size maxHours : ℚ)
    (hl : HLContract) (os : OSContract) (orderType : OrderType) :
    (fundingDiffOf hl os = 0 →
      fundingHoursJSOf hlCost osCost size hl os = .posInf ∧
      (calculateSingleArbitrageJS hlCost osCost size maxHours hl os
        orderType).fundingHours = none ∧
      (calculateSingleArbitrageJS hlCost osCost size maxHours hl os
        orderType).fundingValid = false) ∧
    (0 < fundingPerHourOf size hl os →
      fundingHoursJSOf hlCost osCost size hl os =
        .num ((hlCost + osCost) / fundingPerHourOf size hl os)) := by
  constructor
  · intro h
    have hf : fundingPerHourOf size hl os = 0 := by
      simp [fundingPerHourOf, h]
    have hfh : fundingHoursJSOf hlCost osCost size hl os = .posInf := by
      simp [fundingHoursJSOf, hf, jsLt]
    refine ⟨hfh, ?_, ?_⟩ <;>
      simp [calculateSingleArbitrageJS, hfh, jsLe]
  · intro h
    have hne : fundingPerHourOf size hl os ≠ 0 := ne_of_gt h
    simp [fundingHoursJSOf, jsLt, h, jsDiv, jsAdd, hne]

/-- Concrete instances of `fundingBreakEven_sentinel`: a pair with
identical (absent) funding rates, and a pair with a positive funding
differential. -/
theorem fundingBreakEven_sentinel_witness :
    (fundingHoursJSOf 1 2 1000 ⟨"BTC", none, 1, 1, 1, none⟩
        ⟨some "BTC", some "crypto", 1, 1, 1, none, none⟩ = .posInf ∧
      (calculateSingleArbitrageJS 1 2 1000 24 ⟨"BTC", none, 1, 1, 1, none⟩
        ⟨some "BTC", some "crypto", 1, 1, 1, none, none⟩ .maker).fundingHours
        = none ∧
      (calculateSingleArbitrageJS 1 2 1000 24 ⟨"BTC", none, 1, 1, 1, none⟩
        ⟨some "BTC", some "crypto", 1, 1, 1, none, none⟩ .maker).fundingValid
        = false) ∧
    fundingHoursJSOf 1 2 1000 ⟨"BTC", none, 1, 1, 1, some 0.02⟩
        ⟨some "BTC", some "crypto", 1, 1, 1, some 0.01, none⟩
      = .num ((1 + 2) / fundingPerHourOf 1000 ⟨"BTC", none, 1, 1, 1, some 0.02⟩
          ⟨some "BTC", some "crypto", 1, 1, 1, some 0.01, none⟩) :=
  ⟨(fundingBreakEven_sentinel 1 2 1000 24 ⟨"BTC", none, 1, 1, 1, none⟩
      ⟨some "BTC", some "crypto", 1, 1, 1, none, none⟩ .maker).1
      (by norm_num [fundingDiffOf, hlFundingOf, osFundingOf, jsOrQ]),
    (fundingBreakEven_sentinel 1 2 1000 24 ⟨"BTC", none, 1, 1, 1, some 0.02⟩
      ⟨some "BTC", some "crypto", 1, 1, 1, some 0.01, none⟩ .maker).2
      (by norm_num [fundingPerHourOf, fundingDiffOf, hlFundingOf, osFundingOf,
        jsOrQ, abs_of_nonneg])⟩

/-- Claim C6 as stated is false: for an OS contract reporting only a
rollover rate, the calculator does not sign-flip it.  With HL hourly
funding 0.01 and OS rollover 0.01 the code yields
`fundingDiff = |0.01 - 0.01| = 0`, not `|0.01 - (-0.01)| = 0.02`. -/
theorem rollover_signFlip_counterexample :
    (calculateSingleArbitrage 0 0.1 1000 24
        ⟨"GOLD", some "xyz", 100, 100, 100, some 0.01⟩
        ⟨some "XAU", some "commodities", 99, 99, 99, none, some 0.01⟩
        .maker).fundingDiff
      ≠ |(0.01 : ℚ) - -(0.01 : ℚ)| := by
  show fundingDiffOf _ _ ≠ _
  norm_num [fundingDiffOf, hlFundingOf, osFundingOf, jsOrQ, abs_of_nonneg]

/-- Claim C6 (amended): for every OS contract reporting a rollover rate
instead of a funding rate, the funding differential uses the rollover
rate with its sign unchanged: `fundingDiff = |hlFundingHourly -
rolloverHourly|` (the sign is flipped only for the display colour class
in `renderOSCard`, not in the calculator). -/
theorem rollover_no_signFlip (hlCost osCost size maxHours : ℚ)
    (hl : HLContract) (os : OSContract) (orderType : OrderType) (r : ℚ)
    (hlong : os.fundingRate_longPayHourly = none)
    (hroll : os.rolloverRate_hourly = some r) :
    (calculateSingleArbitrage hlCost osCost size maxHours hl os
        orderType).fundingDiff = |hlFundingOf hl - r| := by
  have hos : osFundingOf os = r := by
    simp only [osFundingOf, hlong, hroll, jsOrQ]
    split_ifs with hr
    · exact hr.symm
    · rfl
  show fundingDiffOf hl os = _
  rw [fundingDiffOf, hos]

/-- Concrete instance of `rollover_no_signFlip` at rollover 0.01. -/
theorem rollover_no_signFlip_witness :
    (calculateSingleArbitrage 0 0.1 1000 24
        ⟨"GOLD", some "xyz", 100, 100, 100, some 0.01⟩
        ⟨some "XAU", some "commodities", 99, 99, 99, none, some 0.01⟩
        .maker).fundingDiff
      = |hlFundingOf ⟨"GOLD", some "xyz", 100, 100, 100, some 0.01⟩ - 0.01| :=
  rollover_no_signFlip 0 0.1 1000 24 _ _ .maker 0.01 rfl rfl

/-- Claim C10: with positive position size, positive reference price and
a non-negative horizon, a sub-result with `spreadCanProfit` true has
`remainingCost ≤ 0`, hence combined break-even time `0` and
`comboValid` true; consequently `anyCanProfit` coincides with
`fundingValid || comboValid`. -/
theorem spreadVerdict_subsumed (hlCost osCost size maxHours : ℚ)
    (hl : HLContract) (os : OSContract) (orderType : OrderType)
    (hsize : 0 < size) (havg : 0 < avgPriceOf orderType hl os)
    (hmax : 0 ≤ maxHours) :
    ((calculateSingleArbitrage hlCost osCost size maxHours hl os
        orderType).spreadCanProfit = true →
      remainingCostOf hlCost osCost size orderType hl os ≤ 0 ∧
      (calculateSingleArbitrage hlCost osCost size maxHours hl os
        orderType).comboHours = some 0 ∧
      (calculateSingleArbitrage hlCost osCost size maxHours hl os
        orderType).comboValid = true) ∧
    (calculateSingleArbitrage hlCost osCost size maxHours hl os
        orderType).anyCanProfit =
      ((calculateSingleArbitrage hlCost osCost size maxHours hl os
          orderType).fundingValid ||
        (calculateSingleArbitrage hlCost osCost size maxHours hl os
          orderType).comboValid) := by
  have key : breakEvenSpreadUSDOf hlCost osCost size orderType hl os ≤
      currentSpreadUSDOf orderType hl os ↔
      remainingCostOf hlCost osCost size orderType hl os ≤ 0 := by
    unfold breakEvenSpreadUSDOf remainingCostOf spreadProfitOf
    rw [div_le_iff₀ hsize, sub_nonpos, le_div_iff₀ havg]
  by_cases hsc : breakEvenSpreadUSDOf hlCost osCost size orderType hl os ≤
      currentSpreadUSDOf orderType hl os
  · have hrem : remainingCostOf hlCost osCost size orderType hl os ≤ 0 := key.mp hsc
    have hnot : ¬(0 < remainingCostOf hlCost osCost size orderType hl os ∧
        0 < fundingPerHourOf size hl os) :=
      fun hc => absurd hrem (not_le.mpr hc.1)
    have hcombo : comboHoursIOf hlCost osCost size orderType hl os = some 0 := by
      simp [comboHoursIOf, hnot, hrem]
    constructor
    · intro _
      refine ⟨hrem, ?_, ?_⟩ <;> simp [calculateSingleArbitrage, hcombo, hmax]
    · simp [calculateSingleArbitrage, hcombo, hmax]
  · constructor
    · intro hcontra
      have : (calculateSingleArbitrage hlCost osCost size maxHours hl os
          orderType).spreadCanProfit = false := by
        simp [calculateSingleArbitrage, hsc]
      rw [hcontra] at this
      exact absurd this (by simp)
    · simp [calculateSingleArbitrage, hsc]

/-- Concrete instance of `spreadVerdict_subsumed`: positive size,
positive maker reference price, non-negative horizon, with
`spreadCanProfit` true. -/
theorem spreadVerdict_subsumed_witness :
    ((calculateSingleArbitrage 0.5 0.5 1000 24 ⟨"BTC", none, 100, 100, 100, none⟩
        ⟨some "BTC", some "crypto", 90, 90, 90, none, none⟩
        .maker).spreadCanProfit = true →
      remainingCostOf 0.5 0.5 1000 .maker ⟨"BTC", none, 100, 100, 100, none⟩
        ⟨some "BTC", some "crypto", 90, 90, 90, none, none⟩ ≤ 0 ∧
      (calculateSingleArbitrage 0.5 0.5 1000 24 ⟨"BTC", none, 100, 100, 100, none⟩
        ⟨some "BTC", some "crypto", 90, 90, 90, none, none⟩
        .maker).comboHours = some 0 ∧
      (calculateSingleArbitrage 0.5 0.5 1000 24 ⟨"BTC", none, 100, 100, 100, none⟩
        ⟨some "BTC", some "crypto", 90, 90, 90, none, none⟩
        .maker).comboValid = true) ∧
    (calculateSingleArbitrage 0.5 0.5 1000 24 ⟨"BTC", none, 100, 100, 100, none⟩
        ⟨some "BTC", some "crypto", 90, 90, 90, none, none⟩
        .maker).anyCanProfit =
      ((calculateSingleArbitrage 0.5 0.5 1000 24 ⟨"BTC", none, 100, 100, 100, none⟩
          ⟨some "BTC", some "crypto", 90, 90, 90, none, none⟩
          .maker).fundingValid ||
        (calculateSingleArbitrage 0.5 0.5 1000 24 ⟨"BTC", none, 100, 100, 100, none⟩
          ⟨some "BTC", some "crypto", 90, 90, 90, none, none⟩
          .maker).comboValid) :=
  spreadVerdict_subsumed 0.5 0.5 1000 24 _ _ .maker (by norm_num)
    (by norm_num [avgPriceOf]) (by norm_num)

/-- For every input, the returned `fundingHours` field of the IEEE model
is `null` or a finite number: the internal value is finite or the
`Infinity` sentinel, and `Infinity` fails the `<= maxHours` validity
comparison, so it is replaced by `null`. -/
theorem fundingHours_field_null_or_finite (hlCost osCost size maxHours : ℚ)
    (hl : HLContract) (os : OSContract) (orderType : OrderType) :
    (calculateSingleArbitrageJS hlCost osCost size maxHours hl os
        orderType).fundingHours = none ∨
    ∃ q, (calculateSingleArbitrageJS hlCost osCost size maxHours hl os
        orderType).fundingHours = some (.num q) := by
  by_cases h : 0 < fundingPerHourOf size hl os
  · have hfh : fundingHoursJSOf hlCost osCost size hl os =
        .num ((hlCost + osCost) / fundingPerHourOf size hl os) := by
      simp [fundingHoursJSOf, jsLt, h, jsDiv, jsAdd, ne_of_gt h]
    simp only [calculateSingleArbitrageJS, hfh]
    split
    · exact Or.inr ⟨_, rfl⟩
    · exact Or.inl rfl
  · have hfh : fundingHoursJSOf hlCost osCost size hl os = .posInf := by
      simp [fundingHoursJSOf, jsLt, h]
    simp [calculateSingleArbitrageJS, hfh, jsLe]

/-- For every input, the returned `comboHours` field of the IEEE model
is `null` or a finite number: `NaN` and `Infinity` internal values fail
the `<= maxHours` validity comparison and are replaced by `null`. -/
theorem comboHours_field_null_or_finite (hlCost osCost size maxHours : ℚ)
    (hl : HLContract) (os : OSContract) (orderType : OrderType) :
    (calculateSingleArbitrageJS hlCost osCost size maxHours hl os
        orderType).comboHours = none ∨
    ∃ q, (calculateSingleArbitrageJS hlCost osCost size maxHours hl os
        orderType).comboHours = some (.num q) := by
  have hch : comboHoursJSOf hlCost osCost size orderType hl os = .posInf ∨
      ∃ q, comboHoursJSOf hlCost osCost size orderType hl os = .num q := by
    unfold comboHoursJSOf
    rcases hrem : remainingCostJSOf hlCost osCost size orderType hl os with q | _ | _ | _
    · by_cases h2 : 0 < fundingPerHourOf size hl os
      · by_cases h1 : 0 < q
        · exact Or.inr ⟨q / fundingPerHourOf size hl os,
            by simp [jsLt, h1, h2, jsDiv, ne_of_gt h2]⟩
        · exact Or.inr ⟨0, by simp [jsLt, h1, jsLe, not_lt.mp h1]⟩
      · by_cases h1 : 0 < q
        · exact Or.inl (by simp [jsLt, h1, h2, jsLe, h1.not_le])
        · exact Or.inr ⟨0, by simp [jsLt, h1, jsLe, not_lt.mp h1]⟩
    · by_cases h2 : 0 < fundingPerHourOf size hl os
      · exact Or.inl (by simp [jsLt, h2, jsDiv, le_of_lt h2])
      · exact Or.inl (by simp [jsLt, h2, jsLe])
    · exact Or.inr ⟨0, by simp [jsLt, jsLe]⟩
    · exact Or.inl (by simp [jsLt, jsLe])
  rcases hch with hch | ⟨q, hch⟩
  · simp [calculateSingleArbitrageJS, hch, jsLe]
  · simp only [calculateSingleArbitrageJS, hch]
    split
    · exact Or.inr ⟨_, rfl⟩
    · exact Or.inl rfl

/-- Claim C7 as stated is false: with zero position size AND zero
reference price (both mids 0) and nonzero total cost (the oracle fee),
the returned `breakEvenSpreadUSD` is `NaN` (`totalCost × 0 / 0`), not an
unreachable sentinel. -/
theorem degenerate_division_counterexample :
    (calculateSingleArbitrageJS 0 0.1 0 24 ⟨"BTC", none, 0, 0, 0, none⟩
        ⟨some "BTC", some "crypto", 0, 0, 0, none, none⟩
        .maker).breakEvenSpreadUSD = JSNum.nan := by
  have hbe : (calculateSingleArbitrageJS 0 0.1 0 24 ⟨"BTC", none, 0, 0, 0, none⟩
        ⟨some "BTC", some "crypto", 0, 0, 0, none, none⟩
        .maker).breakEvenSpreadUSD
      = jsDiv (.num ((0 + 0.1) * avgPriceOf .maker ⟨"BTC", none, 0, 0, 0, none⟩
          ⟨some "BTC", some "crypto", 0, 0, 0, none, none⟩)) (.num 0) := rfl
  rw [hbe]
  norm_num [avgPriceOf, jsDiv]

/-- Claim C7 (amended): for every input with zero position size or zero
reference price, the calculation raises no division error (IEEE division
is total); `totalCost` and `currentSpreadUSD` stay finite; the returned
`fundingHours` and `comboHours` fields are `null` or finite, never
`NaN`/`Infinity`; and `breakEvenSpreadUSD` is never `NaN` — it is the
`Infinity` sentinel (or a finite number) — except in the case excluded
by the counterexample, where the position size is zero and
`totalCost × referencePrice` is also zero. -/
theorem degenerate_division_guard (hlCost osCost size maxHours : ℚ)
    (hl : HLContract) (os : OSContract) (orderType : OrderType)
    (hdeg : size = 0 ∨ avgPriceOf orderType hl os = 0)
    (hnn : ¬(size = 0 ∧ (hlCost + osCost) * avgPriceOf orderType hl os = 0)) :
    (∃ q, (calculateSingleArbitrageJS hlCost osCost size maxHours hl os
        orderType).totalCost = .num q) ∧
    (∃ q, (calculateSingleArbitrageJS hlCost osCost size maxHours hl os
        orderType).currentSpreadUSD = .num q) ∧
    (calculateSingleArbitrageJS hlCost osCost size maxHours hl os
        orderType).breakEvenSpreadUSD ≠ .nan ∧
    ((calculateSingleArbitrageJS hlCost osCost size maxHours hl os
        orderType).fundingHours = none ∨
      ∃ q, (calculateSingleArbitrageJS hlCost osCost size maxHours hl os
        orderType).fundingHours = some (.num q)) ∧
    ((calculateSingleArbitrageJS hlCost osCost size maxHours hl os
        orderType).comboHours = none ∨
      ∃ q, (calculateSingleArbitrageJS hlCost osCost size maxHours hl os
        orderType).comboHours = some (.num q)) := by
  refine ⟨⟨hlCost + osCost, rfl⟩, ⟨currentSpreadUSDOf orderType hl os, rfl⟩, ?_,
    fundingHours_field_null_or_finite hlCost osCost size maxHours hl os orderType,
    comboHours_field_null_or_finite hlCost osCost size maxHours hl os orderType⟩
  have hbe : (calculateSingleArbitrageJS hlCost osCost size maxHours hl os
        orderType).breakEvenSpreadUSD
      = jsDiv (.num ((hlCost + osCost) * avgPriceOf orderType hl os))
          (.num size) := rfl
  rcases hdeg with hs | ha
  · have hprod : (hlCost + osCost) * avgPriceOf orderType hl os ≠ 0 :=
      fun h => hnn ⟨hs, h⟩
    rw [hbe, hs]
    simp only [jsDiv, if_pos rfl, if_neg hprod]
    split_ifs <;> simp
  · by_cases hs : size = 0
    · exact absurd ⟨hs, by rw [ha, mul_zero]⟩ hnn
    · rw [hbe]
      simp [jsDiv, hs]

/-- Concrete instance of `degenerate_division_guard`: zero position
size with nonzero mids (nonzero reference price and total cost). -/
theorem degenerate_division_guard_witness :
    (∃ q, (calculateSingleArbitrageJS 0 0.1 0 24 ⟨"BTC", none, 2, 2, 2, none⟩
        ⟨some "BTC", some "crypto", 2, 2, 2, none, none⟩
        .maker).totalCost = .num q) ∧
    (∃ q, (calculateSingleArbitrageJS 0 0.1 0 24 ⟨"BTC", none, 2, 2, 2, none⟩
        ⟨some "BTC", some "crypto", 2, 2, 2, none, none⟩
        .maker).currentSpreadUSD = .num q) ∧
    (calculateSingleArbitrageJS 0 0.1 0 24 ⟨"BTC", none, 2, 2, 2, none⟩
        ⟨some "BTC", some "crypto", 2, 2, 2, none, none⟩
        .maker).breakEvenSpreadUSD ≠ .nan ∧
    ((calculateSingleArbitrageJS 0 0.1 0 24 ⟨"BTC", none, 2, 2, 2, none⟩
        ⟨some "BTC", some "crypto", 2, 2, 2, none, none⟩
        .maker).fundingHours = none ∨
      ∃ q, (calculateSingleArbitrageJS 0 0.1 0 24 ⟨"BTC", none, 2, 2, 2, none⟩
        ⟨some "BTC", some "crypto", 2, 2, 2, none, none⟩
        .maker).fundingHours = some (.num q)) ∧
    ((calculateSingleArbitrageJS 0 0.1 0 24 ⟨"BTC", none, 2, 2, 2, none⟩
        ⟨some "BTC", some "crypto", 2, 2, 2, none, none⟩
        .maker).comboHours = none ∨
      ∃ q, (calculateSingleArbitrageJS 0 0.1 0 24 ⟨"BTC", none, 2, 2, 2, none⟩
        ⟨some "BTC", some "crypto", 2, 2, 2, none, none⟩
        .maker).comboHours = some (.num q)) :=
  degenerate_division_guard 0 0.1 0 24 _ _ .maker (Or.inl rfl)
    (by norm_num [avgPriceOf])

/-- Claim C8: `getOSFeeRate` is total (the embedding is a total
function; the source has no throwing operation on this path), and a
contract with no asset-specific override whose group matches none of the
known classifications resolves to the documented default scalar rate
0.06, while the commodities bucket resolves to 0.05. -/
theorem getOSFeeRate_default (c : OSContract) :
    (OSTIUM_FEE_SCHEDULE_traditional (c.«from».getD "") = none →
      ¬(jsToLower (c.group.getD "") = "forex" ∨
        jsIncludes (jsToLower (c.group.getD "")) "fx" = true) →
      ¬(jsToLower (c.group.getD "") = "indices" ∨
        jsToLower (c.group.getD "") = "index") →
      ¬(jsToLower (c.group.getD "") = "stocks" ∨
        jsToLower (c.group.getD "") = "stock" ∨
        jsToLower (c.group.getD "") = "equities") →
      ¬(jsToLower (c.group.getD "") = "commodities" ∨
        jsToLower (c.group.getD "") = "commodity") →
      ¬(jsToLower (c.group.getD "") = "crypto" ∨
        jsToLower (c.group.getD "") = "cryptocurrency") →
      getOSFeeRate c = .scalar 0.06) ∧
    (OSTIUM_FEE_SCHEDULE_traditional (c.«from».getD "") = none →
      ¬(jsToLower (c.group.getD "") = "forex" ∨
        jsIncludes (jsToLower (c.group.getD "")) "fx" = true) →
      ¬(jsToLower (c.group.getD "") = "indices" ∨
        jsToLower (c.group.getD "") = "index") →
      ¬(jsToLower (c.group.getD "") = "stocks" ∨
        jsToLower (c.group.getD "") = "stock" ∨
        jsToLower (c.group.getD "") = "equities") →
      (jsToLower (c.group.getD "") = "commodities" ∨
        jsToLower (c.group.getD "") = "commodity") →
      getOSFeeRate c = .scalar 0.05) := by
  constructor
  · intro h h1 h2 h3 h4 h5
    simp only [getOSFeeRate, h, if_neg h1, if_neg h2, if_neg h3, if_neg h4, if_neg h5]
  · intro h h1 h2 h3 h4
    simp only [getOSFeeRate, h, if_neg h1, if_neg h2, if_neg h3, if_pos h4]

/-- Concrete instances of `getOSFeeRate_default`: an unclassified group
falls back to 0.06, and the commodities bucket to 0.05. -/
theorem getOSFeeRate_default_witness :
    getOSFeeRate ⟨some "WTI", some "Energy", 1, 1, 1, none, none⟩ = .scalar 0.06 ∧
    getOSFeeRate ⟨some "HG", some "Commodities", 1, 1, 1, none, none⟩ = .scalar 0.05 :=
  ⟨(getOSFeeRate_default ⟨some "WTI", some "Energy", 1, 1, 1, none, none⟩).1
      rfl (by decide) (by decide) (by decide) (by decide) (by decide),
    (getOSFeeRate_default ⟨some "HG", some "Commodities", 1, 1, 1, none, none⟩).2
      rfl (by decide) (by decide) (by decide) (by decide)⟩

/-- Function `jsFindIndex` returns an index into the list. -/
theorem jsFindIndex_lt_length {p : β → Bool} {l : List β} {i : Nat}
    (h : jsFindIndex p l = some i) : i < l.length := by
  induction l generalizing i with
  | nil => simp [jsFindIndex] at h
  | cons x xs ih =>
    by_cases hx : p x
    · simp [jsFindIndex, hx] at h
      subst h
      simp
    · simp only [jsFindIndex, hx, if_neg, Bool.false_eq_true, not_false_iff,
        if_false, Option.map_eq_some'] at h
      obtain ⟨j, hj, rfl⟩ := h
      simpa using Nat.succ_lt_succ (ih hj)

/-- Function `jsFindIndex` succeeds exactly when some element satisfies the
predicate (JS `Array.some`). -/
theorem jsFindIndex_isSome_eq_any (p : β → Bool) (l : List β) :
    (jsFindIndex p l).isSome = l.any p := by
  induction l with
  | nil => rfl
  | cons x xs ih => by_cases hx : p x <;> simp [jsFindIndex, hx, ih]

/-- The sort key is bounded by the priority-list length. -/
theorem sortKey_le (getName : α → Option String) (a : α) :
    sortKeyOf getName a ≤ PRIORITY_ASSETS.length := by
  unfold sortKeyOf
  split
  · exact le_of_lt (jsFindIndex_lt_length (by assumption))
  · exact le_refl _

/-- The sort key equals the priority-list length exactly for
non-priority contracts. -/
theorem sortKey_eq_length_iff (getName : α → Option String) (a : α) :
    sortKeyOf getName a = PRIORITY_ASSETS.length ↔
      isPriorityName getName a = false := by
  unfold sortKeyOf isPriorityName
  rw [← jsFindIndex_isSome_eq_any]
  split
  · rename_i i heq
    have hlt := jsFindIndex_lt_length heq
    simp [heq]
    omega
  · rename_i heq
    simp [heq]

/-- Concatenating the filters of two mutually exclusive predicates is a
permutation of the filter of their disjunction. -/
theorem filter_append_perm_or (p q : α → Bool)
    (hpq : ∀ a, ¬(p a = true ∧ q a = true)) :
    ∀ l : List α, (l.filter p ++ l.filter q).Perm
      (l.filter fun a => p a || q a) := by
  intro l
  induction l with
  | nil => simp
  | cons x xs ih =>
    by_cases hp : p x = true
    · have hq : q x = false := by
        by_cases hqq : q x = true
        · exact absurd ⟨hp, hqq⟩ (hpq x)
        · simpa using hqq
      simpa [List.filter_cons, hp, hq] using ih.cons x
    · by_cases hq : q x = true
      · have hpf : p x = false := by simpa using hp
        simp only [List.filter_cons, hpf, hq, Bool.false_or, if_pos rfl,
          Bool.false_eq_true, if_false]
        exact (List.perm_middle).trans (ih.cons x)
      · have hpf : p x = false := by simpa using hp
        have hqf : q x = false := by simpa using hq
        simpa [List.filter_cons, hpf, hqf] using ih

/-- Function `sortBuckets` up to `n` is a permutation of the sublist of elements
whose key is below `n`. -/
theorem sortBuckets_perm_filter (getName : α → Option String) :
    ∀ (n : Nat) (l : List α),
      (sortBuckets getName n l).Perm
        (l.filter fun a => decide (sortKeyOf getName a < n)) := by
  intro n
  induction n with
  | zero =>
    intro l
    simp [sortBuckets]
  | succ n ih =>
    intro l
    have hstep : sortBuckets getName (n + 1) l =
        sortBuckets getName n l ++ l.filter fun a => sortKeyOf getName a == n := rfl
    have hpt : ∀ a ∈ l,
        (decide (sortKeyOf getName a < n) || (sortKeyOf getName a == n)) =
          decide (sortKeyOf getName a < n + 1) := by
      intro a _
      by_cases h : sortKeyOf getName a < n + 1
      · rcases Nat.lt_succ_iff_lt_or_eq.mp h with h1 | h1 <;> simp [h, h1]
      · have h1 : ¬ sortKeyOf getName a < n := fun hh => h (Nat.lt_succ_of_lt hh)
        have h2 : sortKeyOf getName a ≠ n := fun hh => h (by omega)
        simp [h, h1, h2]
    rw [hstep, ← List.filter_congr hpt]
    refine ((ih l).append (List.Perm.refl _)).trans ?_
    refine filter_append_perm_or _ _ ?_ l
    intro a ⟨h1, h2⟩
    simp at h1 h2
    omega

/-- Every element of `sortBuckets getName n l` has key below `n`. -/
theorem sortBuckets_key_lt (getName : α → Option String) :
    ∀ (n : Nat) (l : List α) (a : α),
      a ∈ sortBuckets getName n l → sortKeyOf getName a < n := by
  intro n
  induction n with
  | zero =>
    intro l a h
    simp [sortBuckets] at h
  | succ n ih =>
    intro l a h
    rcases List.mem_append.mp h with h | h
    · exact Nat.lt_succ_of_lt (ih l a h)
    · have := List.of_mem_filter h
      simp at this
      omega

/-- Function `sortBuckets` output is sorted by key (non-decreasing). -/
theorem sortBuckets_sorted (getName : α → Option String) :
    ∀ (n : Nat) (l : List α),
      (sortBuckets getName n l).Pairwise
        (fun a b => sortKeyOf getName a ≤ sortKeyOf getName b) := by
  intro n
  induction n with
  | zero =>
    intro l
    exact List.Pairwise.nil
  | succ n ih =>
    intro l
    rw [show sortBuckets getName (n + 1) l =
        sortBuckets getName n l ++ l.filter fun a => sortKeyOf getName a == n
      from rfl]
    rw [List.pairwise_append]
    refine ⟨ih l, ?_, ?_⟩
    · have hconst : ∀ a ∈ l.filter fun a => sortKeyOf getName a == n,
          ∀ b ∈ l.filter fun a => sortKeyOf getName a == n,
          sortKeyOf getName a ≤ sortKeyOf getName b := by
        intro a ha b hb
        have h1 := List.of_mem_filter ha
        have h2 := List.of_mem_filter hb
        simp at h1 h2
        omega
      clear ih
      generalize l.filter (fun a => sortKeyOf getName a == n) = m at hconst
      induction m with
      | nil => exact List.Pairwise.nil
      | cons x xs ihm =>
        constructor
        · intro b hb
          exact hconst x (by simp) b (by simp [hb])
        · exact ihm fun a ha b hb => hconst a (by simp [ha]) b (by simp [hb])
    · intro a ha b hb
      have h1 := sortBuckets_key_lt getName n l a ha
      have h2 := List.of_mem_filter hb
      simp at h2
      omega

/-- The comparator passed to `Array.prototype.sort` orders elements
exactly by `sortKeyOf`: it is negative precisely on key-increasing
pairs and zero precisely on equal-key pairs (so the ECMAScript stable
sort it induces is the stable sort by `sortKeyOf`, i.e.
`sortBuckets`). -/
theorem sortByPriorityCompare_sign (getName : α → Option String) (a b : α) :
    (sortByPriorityCompare getName a b < 0 ↔
      sortKeyOf getName a < sortKeyOf getName b) ∧
    (sortByPriorityCompare getName a b = 0 ↔
      sortKeyOf getName a = sortKeyOf getName b) := by
  unfold sortByPriorityCompare sortKeyOf isPriorityName
  rw [← jsFindIndex_isSome_eq_any, ← jsFindIndex_isSome_eq_any]
  rcases hfa : jsFindIndex (fun p => jsIncludes (upperNameOf getName a) p)
      PRIORITY_ASSETS with _ | i <;>
    rcases hfb : jsFindIndex (fun p => jsIncludes (upperNameOf getName b) p)
      PRIORITY_ASSETS with _ | j
  · simp [hfa, hfb]
  · have hj := jsFindIndex_lt_length hfb
    simp [hfa, hfb]
    omega
  · have hi := jsFindIndex_lt_length hfa
    simp [hfa, hfb]
    omega
  · simp [hfa, hfb]
    omega

/-- Claim C9: `sortByPriority` is a permutation of its input that is
sorted by the priority key (every priority contract — key `< 8`, the
index of its first matching `PRIORITY_ASSETS` entry — precedes every
non-priority contract, whose key is `8`; among priority contracts the
order is by that first-match index), and the non-priority contracts keep
their relative insertion order. -/
theorem sortByPriority_spec {α : Type} (getName : α → Option String) (l : List α) :
    (sortByPriority getName l).Perm l ∧
    (sortByPriority getName l).Pairwise
      (fun a b => sortKeyOf getName a ≤ sortKeyOf getName b) ∧
    (sortByPriority getName l).filter (fun a => !isPriorityName getName a)
      = l.filter (fun a => !isPriorityName getName a) := by
  refine ⟨?_, sortBuckets_sorted getName _ l, ?_⟩
  · have h := sortBuckets_perm_filter getName (PRIORITY_ASSETS.length + 1) l
    have hall : ∀ a ∈ l,
        decide (sortKeyOf getName a < PRIORITY_ASSETS.length + 1) = true := by
      intro a _
      simp [Nat.lt_succ_iff]
      exact sortKey_le getName a
    rw [List.filter_eq_self.mpr hall] at h
    exact h
  · show (sortBuckets getName (PRIORITY_ASSETS.length + 1) l).filter _ = _
    rw [show sortBuckets getName (PRIORITY_ASSETS.length + 1) l =
        sortBuckets getName PRIORITY_ASSETS.length l ++
          l.filter fun a => sortKeyOf getName a == PRIORITY_ASSETS.length
      from rfl]
    rw [List.filter_append]
    have h1 : (sortBuckets getName PRIORITY_ASSETS.length l).filter
        (fun a => !isPriorityName getName a) = [] := by
      rw [List.filter_eq_nil_iff]
      intro a ha
      have hlt := sortBuckets_key_lt getName _ l a ha
      have hpri : isPriorityName getName a = true := by
        by_cases hp : isPriorityName getName a
        · exact hp
        · have := (sortKey_eq_length_iff getName a).mpr (by simpa using hp)
          omega
      simp [hpri]
    rw [h1, List.nil_append,
      List.filter_filter (fun a => sortKeyOf getName a == PRIORITY_ASSETS.length) l]
    refine List.filter_congr ?_
    intro a _
    by_cases hp : isPriorityName getName a
    · simp [hp]
    · have hpf : isPriorityName getName a = false := by simpa using hp
      have hke := (sortKey_eq_length_iff getName a).mpr hpf
      simp [hpf, hke]
